import Mathlib

/-!
Verification development for the endly workflow engine and its log-validation
service. Go values are shallowly embedded: Go strings become lists of
characters (one `Char` per byte), Go maps become association lists whose
lookup finds the first matching key, Go pointers to `LogRecord` values are
identified by an allocation id field, and fallible Go functions return
`Except` or carry an explicit error component.
-/

namespace Endly

/-- A Go string, modelled as its list of characters. -/
abbrev GoStr := List Char

/-- `strings.HasPrefix`-style check: `isPrefixB pre s` is true when `pre`
is a prefix of `s`. -/
def isPrefixB : GoStr → GoStr → Bool
  | [], _ => true
  | _ :: _, [] => false
  | a :: as, b :: bs => a = b && isPrefixB as bs

/-- `strings.Contains s sub`: `sub` occurs as a contiguous substring of `s`. -/
def goContains : GoStr → GoStr → Bool
  | [], sub => sub.isEmpty
  | s@(_ :: rest), sub => isPrefixB sub s || goContains rest sub

/-- `strings.Split` on a one-character separator: separators delimit
fields, so `goSplit ',' "" = [""]` and empty fields are kept. -/
def goSplit (sep : Char) : GoStr → List GoStr
  | [] => [[]]
  | c :: rest =>
    let r := goSplit sep rest
    if c = sep then [] :: r
    else (c :: r.headD []) :: r.tail

/-- `strings.Trim s cutset`: remove leading and trailing characters that
appear in `cut`. -/
def goTrim (cut : List Char) (s : GoStr) : GoStr :=
  ((s.dropWhile (cut.contains ·)).reverse.dropWhile (cut.contains ·)).reverse

/-- `strings.TrimSpace`: trim ASCII whitespace from both ends. -/
def goTrimSpace (s : GoStr) : GoStr :=
  goTrim [' ', '\t', '\n', '\x0b', '\x0c', '\r'] s

/-- Modelled from the spec: `toolbox.AsInt` (external toolbox helper) parses
a decimal integer, yielding 0 when the text is not numeric. -/
def goAsInt (s : GoStr) : Int :=
  let digits (l : GoStr) : Option Nat :=
    l.foldl (fun acc c =>
      match acc with
      | none => none
      | some n => if c.isDigit then some (n * 10 + (c.toNat - '0'.toNat)) else none)
      (some 0)
  match s with
  | '-' :: rest => match digits rest with
    | some n => -(n : Int)
    | none => 0
  | _ => match digits s with
    | some n => (n : Int)
    | none => 0

/-- Go map read (`m[k]`), over the association-list model. -/
def assocGet {α : Type} (l : List (GoStr × α)) (k : GoStr) : Option α :=
  (l.find? (fun p => p.1 == k)).map (·.2)

/-- Go map write (`m[k] = v`): overwrite the entry for `k`, or append. -/
def assocPut {α : Type} : List (GoStr × α) → GoStr → α → List (GoStr × α)
  | [], k, v => [(k, v)]
  | (k', v') :: rest, k, v =>
    if k' = k then (k, v) :: rest else (k', v') :: assocPut rest k v

/-- Go map membership test (`_, ok := m[k]`). -/
def assocHas {α : Type} (l : List (GoStr × α)) (k : GoStr) : Bool :=
  (assocGet l k).isSome

/- ## Workflow service: task gating (src/unnamed/part_000) -/

/-- `WorkflowTask` (src/unnamed/part_000): only the `Name` field is used by
`isTaskAllowed`; Actions, Init, Post, RunCriteria and TimeSpentMs are
omitted as unused by the verified operations. -/
structure WorkflowTask where
  name : GoStr
deriving DecidableEq, Repr

/-- `WorkflowRunRequest`: the fields consumed by `isTaskAllowed`
(Params, Async, logging flags are omitted as unused here). -/
structure WorkflowRunRequest where
  name : GoStr
  tasks : GoStr
deriving DecidableEq, Repr

/-- The loop body of `isTaskAllowed` (src/unnamed/part_000:110-127),
iterating over the comma-separated entries of `request.Tasks`. The Go
code splits an entry on `=` only when the entry does NOT contain `=`
(the negated `strings.Contains` on line 114), which the embedding
reproduces verbatim. The allowed-action index map is modelled as the
list of its keys. -/
def isTaskAllowedLoop (candidate : WorkflowTask) : List GoStr → Bool × List Int
  | [] => (false, [])
  | task :: rest =>
    let encodedTask : List GoStr :=
      if ¬ (task.contains '=') then goSplit '=' task else []
    let taskName : GoStr :=
      if ¬ (task.contains '=') then (goSplit '=' task).headD [] else task
    if taskName = candidate.name then
      if encodedTask.length = 2 then
        (true, (goSplit ':' (encodedTask.getD 1 [])).map goAsInt)
      else (true, [])
    else isTaskAllowedLoop candidate rest

/-- `isTaskAllowed` (src/unnamed/part_000:104-129). -/
def isTaskAllowed (candidate : WorkflowTask) (request : WorkflowRunRequest) :
    Bool × List Int :=
  if request.tasks = [] ∨ request.tasks = "*".toList then (true, [])
  else isTaskAllowedLoop candidate (goSplit ',' request.tasks)

/- ## Log records and log files (src/service_log_validator.go) -/

/-- `LogRecord` (src/service_log_validator.go:58-62). The `id` field is a
ghost allocation identifier standing for the Go pointer: two distinct
allocations carry distinct ids, and Go pointer equality is id equality. -/
structure LogRecord where
  id : Nat
  url : GoStr
  number : Nat
  line : GoStr
deriving DecidableEq, Repr

/-- `LogType`: defined outside src/. Modelled from the spec: Name, file
Mask, Inclusion/Exclusion substring filters, and the optional
IndexRegExpr whose first capture group is the key. `useIndex` embeds
`UseIndex()`; `indexExpr` embeds the compiled result of `GetIndexExpr()`
(`none` when compilation fails), a function from a line to the captured
key, returning `[]` when the expression does not match. -/
structure LogType where
  name : GoStr
  mask : GoStr
  inclusion : GoStr
  exclusion : GoStr
  useIndex : Bool
  indexExpr : Option (GoStr → GoStr)

/-- `LogProcessingState` (src/service_log_validator.go:39-42). -/
structure LogProcessingState where
  line : Nat
  position : Nat
deriving DecidableEq, Repr

/-- `LogProcessingState.Update` (src/service_log_validator.go:45-49):
records the line number and advances the position. -/
def LogProcessingState.Update (s : LogProcessingState) (position lineNumber : Nat) :
    LogProcessingState :=
  { line := lineNumber, position := s.position + position }

/-- `LogFile` (src/service_log_validator.go:78-89). The per-file mutex is
dropped (operations are modelled sequentially); `alloc` is a ghost
counter supplying fresh `LogRecord.id`s for records allocated by
`readLogRecords`. -/
structure LogFile where
  url : GoStr
  content : GoStr
  name : GoStr
  logType : LogType
  processingState : LogProcessingState
  lastModified : Int
  size : Nat
  records : List LogRecord
  indexedRecords : List (GoStr × LogRecord)
  alloc : Nat

/-- `LogFile.ShiftLogRecord` (src/service_log_validator.go:92-101):
pop and return the head of `Records`, `none` when empty. -/
def LogFile.ShiftLogRecord (f : LogFile) : Option LogRecord × LogFile :=
  match f.records with
  | [] => (none, f)
  | r :: rest => (some r, { f with records := rest })

/-- `LogFile.ShiftLogRecordByIndex` (src/service_log_validator.go:104-125):
when the key is indexed, return that record and drop every pointer-equal
occurrence from `Records` (keeping order); otherwise pop the head. -/
def LogFile.ShiftLogRecordByIndex (f : LogFile) (value : GoStr) :
    Option LogRecord × LogFile :=
  match f.records with
  | [] => (none, f)
  | head :: tail =>
    match assocGet f.indexedRecords value with
    | none => (some head, { f with records := tail })
    | some result =>
      (some result,
       { f with records := f.records.filter (fun c => c.id != result.id) })

/-- `LogFile.PushLogRecord` (src/service_log_validator.go:128-144): append
the record; when the log type uses indexing and the index expression
compiled, index the record under the captured key when non-empty. -/
def LogFile.PushLogRecord (f : LogFile) (record : LogRecord) : LogFile :=
  let f := { f with records := f.records ++ [record] }
  if f.logType.useIndex then
    match f.logType.indexExpr with
    | some expr =>
      let indexValue := expr record.line
      if indexValue ≠ [] then
        { f with indexedRecords := assocPut f.indexedRecords indexValue record }
      else f
    | none => f
  else f

/-- `LogFile.HasPendingLogs` (src/service_log_validator.go:166-170). -/
def LogFile.HasPendingLogs (f : LogFile) : Bool :=
  f.records.length > 0

/-- The invariant of claim C2: every key of `IndexedRecords` is either
absent or maps to a record that is also present in `Records`. -/
def LogFile.IndexInvariant (f : LogFile) : Prop :=
  ∀ k r, assocGet f.indexedRecords k = some r → r ∈ f.records

/- ## Theorems for C1 and C2/C7 groundwork -/

theorem assocGet_nil {α : Type} (k : GoStr) : assocGet ([] : List (GoStr × α)) k = none := rfl

theorem assocGet_cons {α : Type} (p : GoStr × α) (rest : List (GoStr × α)) (k : GoStr) :
    assocGet (p :: rest) k = if p.1 = k then some p.2 else assocGet rest k := by
  by_cases h : p.1 = k
  · rw [if_pos h]
    unfold assocGet
    rw [List.find?_cons_of_pos _ (by simpa using h)]
    rfl
  · rw [if_neg h]
    unfold assocGet
    rw [List.find?_cons_of_neg _ (by simpa using h)]

theorem assocGet_put_self {α : Type} (l : List (GoStr × α)) (k : GoStr) (v : α) :
    assocGet (assocPut l k v) k = some v := by
  induction l with
  | nil => simp [assocPut, assocGet_cons]
  | cons p rest ih =>
    by_cases h : p.1 = k
    · simp [assocPut, h, assocGet_cons]
    · simp only [assocPut]
      rw [if_neg h, assocGet_cons, if_neg h]
      exact ih

theorem assocGet_put_other {α : Type} (l : List (GoStr × α)) (k k' : GoStr) (v : α)
    (h : k' ≠ k) : assocGet (assocPut l k v) k' = assocGet l k' := by
  induction l with
  | nil => simp [assocPut, assocGet_cons, assocGet_nil, Ne.symm h]
  | cons p rest ih =>
    by_cases hp : p.1 = k
    · subst hp
      rw [assocPut, if_pos rfl, assocGet_cons, assocGet_cons]
      simp only [if_neg (Ne.symm h)]
    · rw [assocPut, if_neg hp, assocGet_cons, assocGet_cons, ih]

/-- Claim C1. The task-selector entry syntax `name=idx1:idx2:...` is dead in
the source: because line 114 splits an entry on `=` only when the entry
contains no `=`, an entry carrying a suffix never equals the task name, so
the task is not allowed at all, and no action restriction is ever produced.
A plain `name` entry still matches. The first conjunct evaluates the code
at the failing input of the claim. -/
theorem isTaskAllowed_suffix_entry_never_matches :
    isTaskAllowed ⟨"build".toList⟩ ⟨"wf".toList, "build=1:2".toList⟩ = (false, [])
    ∧ isTaskAllowed ⟨"build".toList⟩ ⟨"wf".toList, "build".toList⟩ = (true, [])
    ∧ isTaskAllowed ⟨"build".toList⟩ ⟨"wf".toList, []⟩ = (true, [])
    ∧ isTaskAllowed ⟨"build".toList⟩ ⟨"wf".toList, "*".toList⟩ = (true, []) := by
  refine ⟨?_, ?_, ?_, ?_⟩ <;> decide

theorem PushLogRecord_records (f : LogFile) (r : LogRecord) :
    (f.PushLogRecord r).records = f.records ++ [r] := by
  simp only [LogFile.PushLogRecord]
  repeat' split
  all_goals rfl

theorem PushLogRecord_indexedRecords (f : LogFile) (r : LogRecord) :
    (f.PushLogRecord r).indexedRecords = f.indexedRecords ∨
    ∃ iv, (f.PushLogRecord r).indexedRecords = assocPut f.indexedRecords iv r := by
  simp only [LogFile.PushLogRecord]
  repeat' split
  · exact Or.inr ⟨_, rfl⟩
  all_goals exact Or.inl rfl

/-- Claim C2, amended. `PushLogRecord` preserves the invariant that every
key of `IndexedRecords` maps to a record present in `Records`; the claim's
stronger statement over shift operations as well is refuted by
`shiftLogRecord_breaks_IndexInvariant`, because the shift operations
remove records from `Records` without deleting their index entries. -/
theorem PushLogRecord_preserves_IndexInvariant (f : LogFile) (r : LogRecord)
    (h : f.IndexInvariant) : (f.PushLogRecord r).IndexInvariant := by
  intro k rec hget
  rw [PushLogRecord_records]
  rcases PushLogRecord_indexedRecords f r with heq | ⟨iv, heq⟩
  · rw [heq] at hget
    exact List.mem_append_left _ (h k rec hget)
  · rw [heq] at hget
    by_cases hk : k = iv
    · subst hk
      rw [assocGet_put_self] at hget
      injection hget with h2
      subst h2
      exact List.mem_append_right _ (List.mem_singleton_self r)
    · rw [assocGet_put_other _ _ _ _ hk] at hget
      exact List.mem_append_left _ (h k rec hget)

/-- A log type whose index expression always captures the key "k"
(fixture for the C2 counterexample and witness). -/
def c2LogType : LogType :=
  { name := "t".toList, mask := [], inclusion := [], exclusion := [],
    useIndex := true, indexExpr := some (fun _ => "k".toList) }

/-- A freshly-discovered log file of type `c2LogType`, with no records. -/
def c2File : LogFile :=
  { url := [], content := [], name := "f".toList, logType := c2LogType,
    processingState := ⟨0, 0⟩, lastModified := 0, size := 0,
    records := [], indexedRecords := [], alloc := 0 }

/-- The record pushed in the C2 counterexample. -/
def c2Rec : LogRecord := { id := 1, url := [], number := 1, line := "x".toList }

/-- Counterexample to claim C2 as stated: starting from a fresh log file,
pushing one indexed record and then consuming it with `ShiftLogRecord`
leaves the index key "k" mapping to a record that is no longer in
`Records`, so the invariant fails after this sequence of operations. -/
theorem shiftLogRecord_breaks_IndexInvariant :
    ¬ ((c2File.PushLogRecord c2Rec).ShiftLogRecord).2.IndexInvariant := by
  intro h
  have h2 := h "k".toList c2Rec rfl
  have h3 : ((c2File.PushLogRecord c2Rec).ShiftLogRecord).2.records = [] := rfl
  rw [h3] at h2
  exact List.not_mem_nil _ h2

/-- Witness for the amended C2 theorem at a concrete input. -/
theorem PushLogRecord_preserves_IndexInvariant_witness :
    c2File.IndexInvariant ∧ (c2File.PushLogRecord c2Rec).IndexInvariant := by
  have base : c2File.IndexInvariant := by
    intro k r h
    simp [c2File, assocGet] at h
  exact ⟨base, PushLogRecord_preserves_IndexInvariant _ _ base⟩

/-- Claim C7: when `Records` is non-empty, `ShiftLogRecordByIndex` returns
the record indexed under the key and removes every pointer-equal occurrence
from `Records` preserving the order of the rest; when the key is absent it
pops and returns the head of `Records`. -/
theorem ShiftLogRecordByIndex_spec (f : LogFile) (key : GoStr) (h : f.records ≠ []) :
    (∀ r0, assocGet f.indexedRecords key = some r0 →
        (f.ShiftLogRecordByIndex key).1 = some r0 ∧
        (f.ShiftLogRecordByIndex key).2.records
          = f.records.filter (fun c => c.id != r0.id)) ∧
    (assocGet f.indexedRecords key = none →
        (f.ShiftLogRecordByIndex key).1 = f.records.head? ∧
        (f.ShiftLogRecordByIndex key).2.records = f.records.tail) := by
  match hrec : f.records with
  | [] => exact absurd hrec h
  | head :: tail =>
    constructor
    · intro r0 hidx
      unfold LogFile.ShiftLogRecordByIndex
      rw [hrec, hidx]
      exact ⟨rfl, rfl⟩
    · intro hidx
      unfold LogFile.ShiftLogRecordByIndex
      rw [hrec, hidx]
      exact ⟨rfl, rfl⟩

/-- Log type fixture for the C7 witness (index expression irrelevant:
the witness exercises the indexed-records map directly). -/
def c7LogType : LogType :=
  { name := "t".toList, mask := [], inclusion := [], exclusion := [],
    useIndex := true, indexExpr := none }

/-- First queued record of the C7 witness file. -/
def c7RecA : LogRecord := { id := 1, url := [], number := 1, line := "a".toList }

/-- Second queued record of the C7 witness file; indexed under "k2". -/
def c7RecB : LogRecord := { id := 2, url := [], number := 2, line := "b".toList }

/-- C7 witness fixture: two queued records, the second indexed. -/
def c7File : LogFile :=
  { url := [], content := [], name := "f".toList, logType := c7LogType,
    processingState := ⟨0, 0⟩, lastModified := 0, size := 0,
    records := [c7RecA, c7RecB], indexedRecords := [("k2".toList, c7RecB)],
    alloc := 3 }

/-- Witness for C7 at a concrete log file, exercising both the
indexed-hit and the indexed-miss branch. -/
theorem ShiftLogRecordByIndex_spec_witness :
    c7File.records ≠ [] ∧
    (c7File.ShiftLogRecordByIndex "k2".toList).1 = some c7RecB ∧
    (c7File.ShiftLogRecordByIndex "k2".toList).2.records
      = c7File.records.filter (fun c => c.id != c7RecB.id) ∧
    (c7File.ShiftLogRecordByIndex "zz".toList).1 = c7File.records.head? ∧
    (c7File.ShiftLogRecordByIndex "zz".toList).2.records = c7File.records.tail := by
  have hne : c7File.records ≠ [] := by decide
  refine ⟨hne, ?_, ?_, ?_, ?_⟩
  · exact ((ShiftLogRecordByIndex_spec c7File "k2".toList hne).1 c7RecB rfl).1
  · exact ((ShiftLogRecordByIndex_spec c7File "k2".toList hne).1 c7RecB rfl).2
  · exact ((ShiftLogRecordByIndex_spec c7File "zz".toList hne).2 rfl).1
  · exact ((ShiftLogRecordByIndex_spec c7File "zz".toList hne).2 rfl).2

/- ## Workflow registry and the Variables engine (C3, C4) -/

/-- A state map: string keys to string values (absent key = Go nil). -/
abbrev StateMap := List (GoStr × GoStr)

/-- A `Variable` binding rule. Modelled from the spec (§4.2): the Variables
engine is defined outside src/. `fromName` is the Go `From` field (renamed
because `from` is reserved in Lean). -/
structure Variable where
  name : GoStr
  fromName : GoStr
  value : GoStr
  required : Bool
deriving DecidableEq, Repr

/-- An ordered sequence of variable binding rules. -/
abbrev Variables := List Variable

/-- Modelled from the spec (§4.2): a leading "->" on a rule name is
stripped before writing. -/
def stripArrow (n : GoStr) : GoStr :=
  match n with
  | '-' :: '>' :: rest => rest
  | _ => n

/-- Modelled from the spec (§4.2): `Variables.Apply(source, target)` is
defined outside src/. Rules are evaluated in order: resolve `From` in the
source (`Value` is used when `From` is empty), fail when `Required` and the
resolved value is nil or empty, otherwise write to the target under the
stripped name. The result is the target after the in-place writes paired
with the first error; on error, earlier writes persist (Go mutates the
target map in place). -/
def Variables.Apply (vars : Variables) (source target : StateMap) :
    StateMap × Option GoStr :=
  match vars with
  | [] => (target, none)
  | v :: rest =>
    let resolved : Option GoStr :=
      if v.fromName = [] then some v.value else assocGet source v.fromName
    if v.required ∧ (resolved = none ∨ resolved = some []) then
      (target, some ("variable was required but had no value: ".toList
        ++ stripArrow v.name))
    else
      let target' :=
        match resolved with
        | some val => assocPut target (stripArrow v.name) val
        | none => target
      Variables.Apply rest source target'

/-- `WorkflowTask` carries more fields in Go; for the registry claims only
identity matters, so a registry-level task is its name (see
`WorkflowTask`). A `Workflow` (data model of §3): name, tasks, Init and
Post bindings; Source, Data and SleepInMs are omitted as unused by the
verified operations. -/
structure Workflow where
  name : GoStr
  tasks : List WorkflowTask
  init : Variables
  post : Variables
deriving DecidableEq, Repr

/-- Modelled from the spec: `Workflow.Validate` is defined outside src/.
Per §3 the validated invariants are a non-empty workflow name and task
names unique within the workflow; `none` means valid. -/
def Workflow.Validate (w : Workflow) : Option GoStr :=
  if w.name = [] then some "workflow name was empty".toList
  else if ¬ (w.tasks.map (·.name)).Nodup then some "duplicate task name".toList
  else none

/-- The workflow registry (`workflowService.registry`, a Go map guarded by
the service mutex; locking is not modelled). -/
abbrev WorkflowRegistry := List (GoStr × Workflow)

/-- `workflowService.Register` (src/unnamed/part_000:63-70): validate, then
unconditionally assign `registry[workflow.Name] = workflow`. -/
def Register (registry : WorkflowRegistry) (w : Workflow) :
    Except GoStr WorkflowRegistry :=
  match w.Validate with
  | some err => .error err
  | none => .ok (assocPut registry w.name w)

/-- Registry lookup (`workflowService.Workflow`, src/unnamed/part_000:77-84,
without the error wrapper). -/
def registryLookup (registry : WorkflowRegistry) (name : GoStr) : Option Workflow :=
  assocGet registry name

/-- A valid workflow registered under "w" (C3 counterexample fixture). -/
def c3WfA : Workflow := { name := "w".toList, tasks := [], init := [], post := [] }

/-- A different valid workflow with the same name "w". -/
def c3WfB : Workflow :=
  { name := "w".toList, tasks := [⟨"t".toList⟩], init := [], post := [] }

/-- Counterexample to claim C3 as stated: registering a workflow whose
contents differ from the already-registered workflow of the same name is
NOT rejected; `Register` succeeds and silently overwrites the entry. -/
theorem Register_overwrites_different_duplicate :
    c3WfB ≠ c3WfA
    ∧ Register [("w".toList, c3WfA)] c3WfB = .ok [("w".toList, c3WfB)] := by
  exact ⟨by decide, rfl⟩

/-- Claim C3, amended: `Register(w)` validates the workflow and inserts it
into the registry; a duplicate name never causes a failure — the new
workflow replaces the previously registered workflow of that name whether
or not the contents differ, other entries are untouched, and `Register`
fails only when validation fails. -/
theorem Register_spec (registry : WorkflowRegistry) (w : Workflow)
    (hv : w.Validate = none) :
    ∃ registry', Register registry w = .ok registry'
      ∧ registryLookup registry' w.name = some w
      ∧ (∀ k, k ≠ w.name → registryLookup registry' k = registryLookup registry k) := by
  refine ⟨assocPut registry w.name w, ?_, ?_, ?_⟩
  · unfold Register
    rw [hv]
  · exact assocGet_put_self registry w.name w
  · intro k hk
    exact assocGet_put_other registry w.name k w hk

/-- Witness for the amended C3 theorem: re-registering the changed
workflow over the old entry succeeds and replaces it. -/
theorem Register_spec_witness :
    c3WfB.Validate = none
    ∧ ∃ registry', Register [("w".toList, c3WfA)] c3WfB = .ok registry'
        ∧ registryLookup registry' c3WfB.name = some c3WfB
        ∧ (∀ k, k ≠ c3WfB.name →
            registryLookup registry' k = registryLookup [("w".toList, c3WfA)] k) :=
  ⟨by decide, Register_spec [("w".toList, c3WfA)] c3WfB (by decide)⟩

/- ## runWorkflow: the task loop and the Post phase (C4) -/

/-- `WorkflowRunResponse` (§6): session id and the Data map filled from
`workflow.Post`. -/
structure WorkflowRunResponse where
  sessionID : GoStr
  data : StateMap
deriving DecidableEq, Repr

/-- The task loop of `workflowService.runWorkflow`
(src/unnamed/part_000:417-424): run tasks in order, the first task error
aborts the workflow. Task execution is abstracted by the `runTask`
argument. -/
def runTasks (runTask : WorkflowTask → StateMap → Except GoStr StateMap) :
    List WorkflowTask → StateMap → Except GoStr StateMap
  | [], st => .ok st
  | t :: ts, st =>
    match runTask t st with
    | .error e => .error e
    | .ok st' => runTasks runTask ts st'

/-- The tail of `workflowService.runWorkflow` (src/unnamed/part_000:417-431):
after the task loop, `workflow.Post.Apply(state, response.Data)` is invoked
on line 425 with its returned error DISCARDED, and a successful response is
returned. The earlier phases (loading, context cloning, params, Init) are
upstream of the claim and are summarized by the `state0` argument. -/
def runWorkflowTasksAndPost (workflow : Workflow) (sessionID : GoStr)
    (state0 : StateMap)
    (runTask : WorkflowTask → StateMap → Except GoStr StateMap) :
    Except GoStr WorkflowRunResponse :=
  match runTasks runTask workflow.tasks state0 with
  | .error e => .error e
  | .ok state =>
    let postResult := Variables.Apply workflow.post state []
    .ok { sessionID := sessionID, data := postResult.1 }

/-- A workflow whose Post contains a Required rule that cannot resolve
(fixture for C4). -/
def c4Workflow : Workflow :=
  { name := "w".toList, tasks := [], init := [],
    post := [{ name := "x".toList, fromName := "missing".toList,
               value := [], required := true }] }

/-- Claim C4 is violated by the code: for `c4Workflow` run from an empty
state, applying `workflow.Post` fails (first conjunct), yet `runWorkflow`
returns a successful response because line 425 ignores the error returned
by `Apply` (second conjunct). The spec's open question (c) records that
surfacing the error is the intent. -/
theorem runWorkflow_post_error_swallowed :
    (Variables.Apply c4Workflow.post [] []).2.isSome = true
    ∧ runWorkflowTasksAndPost c4Workflow "s".toList [] (fun _ st => .ok st)
        = .ok { sessionID := "s".toList, data := [] } := by
  exact ⟨rfl, rfl⟩

/- ## Incremental log reading and rotation detection (C6) -/

/-- The scanning loop of `LogFile.readLogRecords`
(src/service_log_validator.go:185-219), recursing over the bytes after the
current position: non-terminator bytes accumulate into `line`; a `\n` or
`\r` terminates the line, which is trimmed, filtered through
Exclusion/Inclusion, pushed when non-empty, and consumed by advancing the
processing state. Fresh record ids come from the ghost `alloc` counter. -/
def readLogRecordsLoop (f : LogFile) (line : GoStr) (lineIndex : Nat)
    (dataProcessed : Nat) : GoStr → LogFile
  | [] => f
  | c :: rest =>
    let dataProcessed := dataProcessed + 1
    if c ≠ '\n' ∧ c ≠ '\r' then
      readLogRecordsLoop f (line ++ [c]) lineIndex dataProcessed rest
    else
      let line2 := goTrim [' ', '\r', '\t'] line
      let lineIndex2 := lineIndex + 1
      if f.logType.exclusion ≠ [] ∧ goContains line2 f.logType.exclusion = true then
        readLogRecordsLoop
          { f with processingState := f.processingState.Update dataProcessed lineIndex2 }
          [] lineIndex2 0 rest
      else if f.logType.inclusion ≠ [] ∧ goContains line2 f.logType.inclusion = false then
        readLogRecordsLoop
          { f with processingState := f.processingState.Update dataProcessed lineIndex2 }
          [] lineIndex2 0 rest
      else
        let f2 :=
          if line2 ≠ [] then
            { f.PushLogRecord
                { id := f.alloc, url := f.url, number := lineIndex2, line := line2 }
              with alloc := f.alloc + 1 }
          else f
        readLogRecordsLoop
          { f2 with processingState := f2.processingState.Update dataProcessed lineIndex2 }
          [] lineIndex2 0 rest

/-- `LogFile.readLogRecords` (src/service_log_validator.go:172-221): no-op
when the position is beyond the data, otherwise scan from the position. -/
def LogFile.readLogRecords (f : LogFile) (data : GoStr) : LogFile :=
  if f.processingState.position > data.length then f
  else readLogRecordsLoop f [] f.processingState.line 0
    (data.drop f.processingState.position)

/-- `LogFile.Reset` (src/service_log_validator.go:157-163): set `Size` to
the storage object's stat size, update `LastModified`, and zero the
processing state. `infoSize`/`infoMod` stand for
`object.FileInfo().Size()` and `.ModTime()`. -/
def LogFile.Reset (f : LogFile) (infoSize : Nat) (infoMod : Int) : LogFile :=
  { f with size := infoSize, lastModified := infoMod,
           processingState := { line := 0, position := 0 } }

/-- Lines 454-459 of `readLogFile`: re-read records only when the
downloaded content is non-empty. -/
def emitFrom (f : LogFile) (content : GoStr) : LogFile :=
  if content.length > 0 then f.readLogRecords content else f

/-- The per-file portion of `logValidatorService.readLogFile`
(src/service_log_validator.go:428-459) for an already-materialized
`LogFile`: the `(Size, ModTime)` skip check, the shrink/rollover reset,
the non-append-rewrite reset, the Content/Size update, and the record
re-read. `content` is the downloaded byte string; `infoSize`/`infoMod`
are the storage object's stat size and mod time. -/
def readLogFileUpdate (f0 : LogFile) (isNewLogFile : Bool) (infoSize : Nat)
    (infoMod : Int) (content : GoStr) : LogFile :=
  if isNewLogFile = false ∧ f0.size = infoSize ∧ f0.lastModified = infoMod then f0
  else
    let fileOverridden := f0.content.length > content.length
    let f1 :=
      if fileOverridden then { f0.Reset infoSize infoMod with content := content }
      else f0
    let f2 :=
      if ¬ fileOverridden ∧ f1.size < infoSize ∧ isPrefixB f1.content content = false
      then f1.Reset infoSize infoMod else f1
    let f3 := { f2 with content := content, size := content.length }
    emitFrom f3 content

/-- Claim C6: when the downloaded content is strictly shorter than the
cached `Content`, the file is Reset and records are re-emitted from
offset 0 (the result equals re-reading the reset file, whose position and
line are 0, from the new content); when instead the stat size exceeds the
cached `Size` and the new content does not start with the cached content,
the file is likewise Reset; and `Reset` sets `Size` to the new stat size
and zeroes `Position` and `Line`. -/
theorem readLogFile_rotation_resets (f0 : LogFile) (isNewLogFile : Bool)
    (infoSize : Nat) (infoMod : Int) (content : GoStr)
    (hskip : ¬ (isNewLogFile = false ∧ f0.size = infoSize ∧ f0.lastModified = infoMod)) :
    (content.length < f0.content.length →
      readLogFileUpdate f0 isNewLogFile infoSize infoMod content
        = emitFrom { f0.Reset infoSize infoMod with
                     content := content, size := content.length } content)
    ∧ (¬ content.length < f0.content.length → f0.size < infoSize →
        isPrefixB f0.content content = false →
      readLogFileUpdate f0 isNewLogFile infoSize infoMod content
        = emitFrom { f0.Reset infoSize infoMod with
                     content := content, size := content.length } content)
    ∧ (f0.Reset infoSize infoMod).size = infoSize
    ∧ (f0.Reset infoSize infoMod).processingState.position = 0
    ∧ (f0.Reset infoSize infoMod).processingState.line = 0 := by
  refine ⟨?_, ?_, rfl, rfl, rfl⟩
  · intro h1
    have hgt : f0.content.length > content.length := h1
    simp only [readLogFileUpdate, if_neg hskip, if_pos hgt]
    rw [if_neg (fun hc => hc.1 hgt)]
  · intro h1 h2 h3
    simp only [readLogFileUpdate, if_neg hskip]
    rw [if_neg h1, if_pos (show _ ∧ _ ∧ _ from ⟨h1, h2, h3⟩)]

/-- Plain log type for the C6 witness (no filters, no index). -/
def c6LogType : LogType :=
  { name := "t".toList, mask := [], inclusion := [], exclusion := [],
    useIndex := false, indexExpr := none }

/-- C6 witness fixture: a tracked file whose cached content is "ab\n". -/
def c6File : LogFile :=
  { url := [], content := "ab\n".toList, name := "f".toList, logType := c6LogType,
    processingState := ⟨1, 3⟩, lastModified := 7, size := 3,
    records := [], indexedRecords := [], alloc := 0 }

/-- C6 witness fixture for the non-append-rewrite branch: cached "ab". -/
def c6File2 : LogFile :=
  { url := [], content := "ab".toList, name := "f".toList, logType := c6LogType,
    processingState := ⟨0, 2⟩, lastModified := 7, size := 2,
    records := [], indexedRecords := [], alloc := 0 }

/-- Witness for C6: a shrink to "a" and a non-append rewrite to "xyzw"
both reset and re-read from offset 0. -/
theorem readLogFile_rotation_resets_witness :
    ("a".toList.length < c6File.content.length
      ∧ readLogFileUpdate c6File false 1 9 "a".toList
          = emitFrom { c6File.Reset 1 9 with
                       content := "a".toList, size := "a".toList.length } "a".toList)
    ∧ (¬ "xyzw".toList.length < c6File2.content.length
        ∧ c6File2.size < 4 ∧ isPrefixB c6File2.content "xyzw".toList = false
        ∧ readLogFileUpdate c6File2 false 4 9 "xyzw".toList
            = emitFrom { c6File2.Reset 4 9 with
                         content := "xyzw".toList, size := "xyzw".toList.length }
                "xyzw".toList) := by
  refine ⟨⟨by decide, ?_⟩, ⟨by decide, by decide, by decide, ?_⟩⟩
  · exact (readLogFile_rotation_resets c6File false 1 9 "a".toList (by decide)).1
      (by decide)
  · exact ((readLogFile_rotation_resets c6File2 false 4 9 "xyzw".toList (by decide)).2).1
      (by decide) (by decide) (by decide)

/- ## Service state, reset (C10) and listen (C8) -/

/-- `LogTypeMeta` (src/service_log_validator.go:224-228): the source URL,
the log type, and the tracked files by name. -/
structure LogTypeMeta where
  source : GoStr
  logType : LogType
  logFiles : List (GoStr × LogFile)

/-- `NewLogTypeMeta` (src/service_log_validator.go:763-769). -/
def NewLogTypeMeta (source : GoStr) (t : LogType) : LogTypeMeta :=
  { source := source, logType := t, logFiles := [] }

/-- The log-validator service state: values under `meta_<name>` keys. -/
abbrev ServiceState := List (GoStr × LogTypeMeta)

/-- `logTypeMetaKey` (src/service_log_validator.go:714-716). -/
def logTypeMetaKey (name : GoStr) : GoStr := "meta_".toList ++ name

/-- The per-file body of `logValidatorService.reset`
(src/service_log_validator.go:267-274): position jumps to `Size`, the line
counter to the number of queued records, and the queue is emptied. -/
def resetLogFile (f : LogFile) : LogFile :=
  { f with processingState := { position := f.size, line := f.records.length },
           records := [] }

/-- `logValidatorService.reset` (src/service_log_validator.go:258-278):
walk the requested type names, silently skipping unregistered ones; for a
registered type reset every tracked file and collect the file names. The
third component is the returned Go error, always nil. -/
def logValidatorReset (st : ServiceState) :
    List GoStr → ServiceState × List GoStr × Option GoStr
  | [] => (st, [], none)
  | t :: rest =>
    if assocHas st (logTypeMetaKey t) then
      match assocGet st (logTypeMetaKey t) with
      | some m =>
        let m' := { m with logFiles := m.logFiles.map (fun p => (p.1, resetLogFile p.2)) }
        let names := m.logFiles.map (fun p => p.2.name)
        let st' := assocPut st (logTypeMetaKey t) m'
        let r := logValidatorReset st' rest
        (r.1, names ++ r.2.1, r.2.2)
      | none => logValidatorReset st rest
    else logValidatorReset st rest

theorem logTypeMetaKey_injective (a b : GoStr) (h : logTypeMetaKey a = logTypeMetaKey b) :
    a = b := by
  simpa [logTypeMetaKey] using h

theorem logValidatorReset_err (st : ServiceState) (req : List GoStr) :
    (logValidatorReset st req).2.2 = none := by
  induction req generalizing st with
  | nil => rfl
  | cons t rest ih =>
    unfold logValidatorReset
    by_cases h : assocHas st (logTypeMetaKey t) = true
    · rw [if_pos h]
      cases hg : assocGet st (logTypeMetaKey t) with
      | none => exact ih st
      | some m => simpa using ih (assocPut st (logTypeMetaKey t)
          { m with logFiles := m.logFiles.map (fun p => (p.1, resetLogFile p.2)) })
    · rw [if_neg h]
      exact ih st

theorem logValidatorReset_untouched (st : ServiceState) (req : List GoStr)
    (t : GoStr) (h : t ∉ req) :
    assocGet (logValidatorReset st req).1 (logTypeMetaKey t)
      = assocGet st (logTypeMetaKey t) := by
  induction req generalizing st with
  | nil => rfl
  | cons t' rest ih =>
    have hne : t ≠ t' := fun he => h (he ▸ List.mem_cons_self t' rest)
    have hrest : t ∉ rest := fun hm => h (List.mem_cons_of_mem t' hm)
    unfold logValidatorReset
    by_cases hh : assocHas st (logTypeMetaKey t') = true
    · rw [if_pos hh]
      cases hg : assocGet st (logTypeMetaKey t') with
      | none => exact ih st hrest
      | some m =>
        simp only []
        rw [ih _ hrest]
        exact assocGet_put_other _ _ _ _ (fun hk => hne (logTypeMetaKey_injective _ _ hk))
    · rw [if_neg hh]
      exact ih st hrest

theorem logValidatorReset_names (st : ServiceState) (req : List GoStr)
    (hnd : req.Nodup) :
    (logValidatorReset st req).2.1
      = (req.map (fun t =>
          match assocGet st (logTypeMetaKey t) with
          | some m => m.logFiles.map (fun p => p.2.name)
          | none => [])).flatten := by
  induction req generalizing st with
  | nil => rfl
  | cons t rest ih =>
    have hnotin : t ∉ rest := (List.nodup_cons.mp hnd).1
    have hrest : rest.Nodup := (List.nodup_cons.mp hnd).2
    unfold logValidatorReset
    by_cases hh : assocHas st (logTypeMetaKey t) = true
    · have hsome : ∃ m, assocGet st (logTypeMetaKey t) = some m := by
        cases hg : assocGet st (logTypeMetaKey t) with
        | none => simp [assocHas, hg] at hh
        | some m => exact ⟨m, rfl⟩
      obtain ⟨m, hg⟩ := hsome
      rw [if_pos hh, hg]
      simp only [List.map_cons, List.flatten_cons, hg]
      rw [ih _ hrest]
      congr 1
      apply congrArg
      apply List.map_congr_left
      intro x hx
      have hne : x ≠ t := fun he => hnotin (he ▸ hx)
      rw [assocGet_put_other _ _ _ _ (fun hk => hne (logTypeMetaKey_injective _ _ hk))]
    · have hnone : assocGet st (logTypeMetaKey t) = none := by
        cases hg : assocGet st (logTypeMetaKey t) with
        | none => rfl
        | some m => simp [assocHas, hg] at hh
      rw [if_neg hh]
      simp only [List.map_cons, List.flatten_cons, hnone, List.nil_append]
      exact ih st hrest

theorem logValidatorReset_registered (req : List GoStr) (t : GoStr) :
    ∀ (st : ServiceState) (m : LogTypeMeta), req.Nodup → t ∈ req →
    assocGet st (logTypeMetaKey t) = some m →
    assocGet (logValidatorReset st req).1 (logTypeMetaKey t)
      = some { m with logFiles := m.logFiles.map (fun p => (p.1, resetLogFile p.2)) } := by
  induction req with
  | nil => intro st m _ ht _; exact absurd ht (List.not_mem_nil t)
  | cons t' rest ih =>
    intro st m hnd ht hg
    have hnotin : t' ∉ rest := (List.nodup_cons.mp hnd).1
    have hrest : rest.Nodup := (List.nodup_cons.mp hnd).2
    rcases List.mem_cons.mp ht with rfl | htr
    · have hh : assocHas st (logTypeMetaKey t) = true := by
        simp [assocHas, hg]
      unfold logValidatorReset
      rw [if_pos hh, hg]
      simp only []
      rw [logValidatorReset_untouched _ _ _ hnotin]
      exact assocGet_put_self _ _ _
    · unfold logValidatorReset
      by_cases hh : assocHas st (logTypeMetaKey t') = true
      · rw [if_pos hh]
        cases hg' : assocGet st (logTypeMetaKey t') with
        | none => exact ih st m hrest htr hg
        | some m' =>
          have hne : t ≠ t' := fun he => hnotin (he ▸ htr)
          simp only []
          refine ih _ m hrest htr ?_
          rw [assocGet_put_other _ _ _ _
            (fun hk => hne (logTypeMetaKey_injective _ _ hk))]
          exact hg
      · rw [if_neg hh]
        exact ih st m hrest htr hg

/-- Claim C10: `reset` never returns an error; unregistered type names are
silently skipped and contribute no file names; for each registered
requested type every tracked `LogFile` ends with
`ProcessingState = {Position: Size, Line: previous len(Records)}` and an
emptied `Records` queue; and exactly the files of the registered requested
types are named in the response. -/
theorem logValidatorReset_spec (st : ServiceState) (req : List GoStr)
    (hnd : req.Nodup) :
    (logValidatorReset st req).2.2 = none
    ∧ (logValidatorReset st req).2.1
        = (req.map (fun t =>
            match assocGet st (logTypeMetaKey t) with
            | some m => m.logFiles.map (fun p => p.2.name)
            | none => [])).flatten
    ∧ (∀ t, t ∈ req → ∀ m, assocGet st (logTypeMetaKey t) = some m →
        assocGet (logValidatorReset st req).1 (logTypeMetaKey t)
          = some { m with logFiles := m.logFiles.map (fun p => (p.1, resetLogFile p.2)) })
    ∧ (∀ f : LogFile, (resetLogFile f).processingState.position = f.size
        ∧ (resetLogFile f).processingState.line = f.records.length
        ∧ (resetLogFile f).records = []) :=
  ⟨logValidatorReset_err st req, logValidatorReset_names st req hnd,
   fun t ht m hg => logValidatorReset_registered req t st m hnd ht hg,
   fun _ => ⟨rfl, rfl, rfl⟩⟩

/-- Plain log type for the C10 witness. -/
def c10LogType : LogType :=
  { name := "a".toList, mask := [], inclusion := [], exclusion := [],
    useIndex := false, indexExpr := none }

/-- Queued record of the C10 witness file. -/
def c10Rec : LogRecord := { id := 5, url := [], number := 1, line := "l".toList }

/-- Tracked file of the C10 witness, with one queued record. -/
def c10File : LogFile :=
  { url := [], content := "l\n".toList, name := "x.log".toList,
    logType := c10LogType, processingState := ⟨1, 2⟩, lastModified := 0,
    size := 2, records := [c10Rec], indexedRecords := [], alloc := 6 }

/-- Registered meta entry of the C10 witness. -/
def c10Meta : LogTypeMeta :=
  { source := [], logType := c10LogType,
    logFiles := [("x.log".toList, c10File)] }

/-- C10 witness service state: log type "a" registered, "b" not. -/
def c10State : ServiceState := [(logTypeMetaKey "a".toList, c10Meta)]

/-- Witness for C10 at a concrete state: resetting types ["a", "b"]
errors never, skips the unregistered "b", returns only "x.log", and
rewrites the tracked file. -/
theorem logValidatorReset_spec_witness :
    (["a".toList, "b".toList] : List GoStr).Nodup
    ∧ (logValidatorReset c10State ["a".toList, "b".toList]).2.2 = none
    ∧ (logValidatorReset c10State ["a".toList, "b".toList]).2.1 = ["x.log".toList]
    ∧ assocGet (logValidatorReset c10State ["a".toList, "b".toList]).1
        (logTypeMetaKey "a".toList)
      = some { c10Meta with
               logFiles := c10Meta.logFiles.map (fun p => (p.1, resetLogFile p.2)) } := by
  have hnd : (["a".toList, "b".toList] : List GoStr).Nodup := by decide
  have h := logValidatorReset_spec c10State ["a".toList, "b".toList] hnd
  refine ⟨hnd, h.1, ?_, h.2.2.1 "a".toList (by decide) c10Meta rfl⟩
  rw [h.2.1]
  rfl

/-- A storage object listed under the watched source URL: `name` is the
filename part of the URL (`toolbox.URLSplit`, external), with the stat
size/mod-time and the downloadable content. -/
structure FileCandidate where
  url : GoStr
  name : GoStr
  isFolder : Bool
  size : Nat
  modTime : Int
  content : GoStr

/-- `logValidatorService.readLogFile` at the state level
(src/service_log_validator.go:394-461): materialize the `LogTypeMeta`
under the `meta_<name>` key if absent, fetch or create the `LogFile` for
the candidate's filename (new files start at `ProcessingState={0,0}` with
empty records), then apply the download/rotation/read pipeline
(`readLogFileUpdate`) and store the updated file. -/
def readLogFileSt (st : ServiceState) (source : GoStr) (c : FileCandidate)
    (t : LogType) : ServiceState × LogTypeMeta :=
  let key := logTypeMetaKey t.name
  let st1 := if assocHas st key then st else assocPut st key (NewLogTypeMeta source t)
  let result := (assocGet st1 key).getD (NewLogTypeMeta source t)
  match assocGet result.logFiles c.name with
  | some logFile =>
    let f' := readLogFileUpdate logFile false c.size c.modTime c.content
    let result' := { result with logFiles := assocPut result.logFiles c.name f' }
    (assocPut st1 key result', result')
  | none =>
    let logFile : LogFile :=
      { logType := t, name := c.name, url := c.url, lastModified := c.modTime,
        size := c.size, processingState := ⟨0, 0⟩, records := [],
        indexedRecords := [], content := [], alloc := 0 }
    let f' := readLogFileUpdate logFile true c.size c.modTime c.content
    let result' := { result with logFiles := assocPut result.logFiles c.name f' }
    (assocPut st1 key result', result')

/-- The inner type loop of `readLogFiles`
(src/service_log_validator.go:480-494): for each type whose mask matches
the candidate's filename, read the file and record the resulting meta in
the response map. The compiled mask regular expression is abstracted by
`maskMatch`. -/
def readLogFilesTypesLoop (source : GoStr) (c : FileCandidate)
    (maskMatch : GoStr → GoStr → Bool) :
    ServiceState → List (GoStr × LogTypeMeta) → List LogType →
    ServiceState × List (GoStr × LogTypeMeta)
  | st, resp, [] => (st, resp)
  | st, resp, t :: ts =>
    if maskMatch t.mask c.name then
      let r := readLogFileSt st source c t
      readLogFilesTypesLoop source c maskMatch r.1 (assocPut resp t.name r.2) ts
    else readLogFilesTypesLoop source c maskMatch st resp ts

/-- The candidate loop of `readLogFiles`
(src/service_log_validator.go:463-497): skip folders, and run the type
loop for each remaining storage object. -/
def readLogFilesLoop (source : GoStr) (maskMatch : GoStr → GoStr → Bool)
    (types : List LogType) :
    ServiceState → List (GoStr × LogTypeMeta) → List FileCandidate →
    ServiceState × List (GoStr × LogTypeMeta)
  | st, resp, [] => (st, resp)
  | st, resp, c :: cs =>
    if c.isFolder then readLogFilesLoop source maskMatch types st resp cs
    else
      let r := readLogFilesTypesLoop source c maskMatch st resp types
      readLogFilesLoop source maskMatch types r.1 r.2 cs

/-- `logValidatorService.readLogFiles`: list the source and process every
candidate. -/
def readLogFilesSt (st : ServiceState) (source : GoStr)
    (candidates : List FileCandidate) (maskMatch : GoStr → GoStr → Bool)
    (types : List LogType) : ServiceState × List (GoStr × LogTypeMeta) :=
  readLogFilesLoop source maskMatch types st [] candidates

/-- The install loop of `listen` (src/service_log_validator.go:555-562):
every requested type gets its meta (fresh if the snapshot produced none)
written into service state under `meta_<name>`. -/
def installMetas (source : GoStr) :
    ServiceState → List (GoStr × LogTypeMeta) → List LogType →
    ServiceState × List (GoStr × LogTypeMeta)
  | st, metas, [] => (st, metas)
  | st, metas, t :: ts =>
    let m := (assocGet metas t.name).getD (NewLogTypeMeta source t)
    let metas' := assocPut metas t.name m
    let st' := assocPut st (logTypeMetaKey t.name) m
    installMetas source st' metas' ts

/-- `logValidatorService.listen` (src/service_log_validator.go:535-570).
`context.ExpandResource` and storage-client creation are assumed to
succeed; the storage listing is the `candidates` argument and the mask
regular expression is abstracted by `maskMatch`. The result is the new
service state, the response or error, and whether the tailer goroutine
(`listenForChanges`) was started. -/
def logValidatorListen (st : ServiceState) (source : GoStr)
    (types : List LogType) (candidates : List FileCandidate)
    (maskMatch : GoStr → GoStr → Bool) :
    ServiceState × Except GoStr (List (GoStr × LogTypeMeta)) × Bool :=
  match types.find? (fun t => assocHas st (logTypeMetaKey t.name)) with
  | some t =>
    (st, .error ("listener has been already register for ".toList ++ t.name), false)
  | none =>
    let r := readLogFilesSt st source candidates maskMatch types
    let r2 := installMetas source r.1 r.2 types
    (r2.1, .ok r2.2, true)

/-- Claim C8: a `listen` naming any already-registered log type returns an
error, leaves the service state untouched (no meta entry installed or
replaced), and starts no tailer. -/
theorem listen_rejects_registered (st : ServiceState) (source : GoStr)
    (types : List LogType) (candidates : List FileCandidate)
    (maskMatch : GoStr → GoStr → Bool) (t : LogType) (ht : t ∈ types)
    (hreg : assocHas st (logTypeMetaKey t.name) = true) :
    (logValidatorListen st source types candidates maskMatch).1 = st
    ∧ (∃ e, (logValidatorListen st source types candidates maskMatch).2.1 = .error e)
    ∧ (logValidatorListen st source types candidates maskMatch).2.2 = false := by
  unfold logValidatorListen
  cases hf : types.find? (fun t => assocHas st (logTypeMetaKey t.name)) with
  | none =>
    have := List.find?_eq_none.mp hf t ht
    exact absurd hreg this
  | some t' => exact ⟨rfl, ⟨_, rfl⟩, rfl⟩

/-- Log type fixture for the C8 witness, named "a" (already registered in
`c8State`). -/
def c8LogType : LogType :=
  { name := "a".toList, mask := "*.log".toList, inclusion := [], exclusion := [],
    useIndex := false, indexExpr := none }

/-- C8 witness state: log type "a" already registered. -/
def c8State : ServiceState :=
  [(logTypeMetaKey "a".toList, NewLogTypeMeta [] c8LogType)]

/-- Witness for C8: a second listen for the registered type "a" (with one
candidate file on offer) errors, mutates nothing, starts no tailer. -/
theorem listen_rejects_registered_witness :
    c8LogType ∈ [c8LogType]
    ∧ assocHas c8State (logTypeMetaKey c8LogType.name) = true
    ∧ (logValidatorListen c8State [] [c8LogType]
        [{ url := "u".toList, name := "x.log".toList, isFolder := false,
           size := 1, modTime := 0, content := "r\n".toList }]
        (fun _ _ => true)).1 = c8State
    ∧ (∃ e, (logValidatorListen c8State [] [c8LogType]
        [{ url := "u".toList, name := "x.log".toList, isFolder := false,
           size := 1, modTime := 0, content := "r\n".toList }]
        (fun _ _ => true)).2.1 = .error e)
    ∧ (logValidatorListen c8State [] [c8LogType]
        [{ url := "u".toList, name := "x.log".toList, isFolder := false,
           size := 1, modTime := 0, content := "r\n".toList }]
        (fun _ _ => true)).2.2 = false := by
  have h := listen_rejects_registered c8State [] [c8LogType]
    [{ url := "u".toList, name := "x.log".toList, isFolder := false,
       size := 1, modTime := 0, content := "r\n".toList }]
    (fun _ _ => true) c8LogType (List.mem_singleton_self _) rfl
  exact ⟨List.mem_singleton_self _, rfl, h.1, h.2.1, h.2.2⟩

/- ## Run-criteria evaluation (C9) -/

/-- `strings.Index(s, string(c)) != -1` as a character-containment test. -/
def goContainsChar : GoStr → Char → Bool
  | [], _ => false
  | c :: rest, x => c == x || goContainsChar rest x

/-- `workflowService.evaluateRunCriteria` (src/unnamed/part_000:86-102).
`context.Expand` and `Validator.Check` are defined outside the excerpted
source and are abstracted as the `expand` and `check` arguments;
`check expected actual` returns the validator verdict and its error. The
Go code splits the criterion on ":" and uses fragments[0] and
fragments[1]. -/
def evaluateRunCriteria (expand : GoStr → GoStr)
    (check : GoStr → GoStr → Bool × Option GoStr) (criteria : GoStr) :
    Bool × Option GoStr :=
  if criteria = [] then (true, none)
  else if goContainsChar criteria ':' = false then
    (false, some ("Run criteria needs to have colon: but had: ".toList ++ criteria))
  else
    let fragments := goSplit ':' criteria
    let actualOperand := expand (goTrimSpace (fragments.getD 0 []))
    let expectedOperand := expand (goTrimSpace (fragments.getD 1 []))
    check expectedOperand actualOperand

/-- The claim's reading of `evaluateRunCriteria`, stated for comparison
with the source embedding: the EXPECTED operand is everything after the
(first) colon, rather than only the second colon-separated fragment. -/
def evaluateRunCriteriaClaim (expand : GoStr → GoStr)
    (check : GoStr → GoStr → Bool × Option GoStr) (criteria : GoStr) :
    Bool × Option GoStr :=
  if criteria = [] then (true, none)
  else if goContainsChar criteria ':' = false then
    (false, some ("Run criteria needs to have colon: but had: ".toList ++ criteria))
  else
    let actualOperand := expand (goTrimSpace (criteria.takeWhile (· != ':')))
    let expectedOperand := expand (goTrimSpace ((criteria.dropWhile (· != ':')).tail))
    check expectedOperand actualOperand

/-- Counterexample to claim C9 as stated: on the criterion "a:b:c" with a
validator that accepts exactly the expected text "b:c", the source
compares only the fragment "b" between the first and second colons
(yielding false), while the claim's reading — EXPECTED is the part after
the colon — yields true. -/
theorem evaluateRunCriteria_second_colon_diverges :
    evaluateRunCriteria id (fun e _ => (e == "b:c".toList, none)) "a:b:c".toList
      = (false, none)
    ∧ evaluateRunCriteriaClaim id (fun e _ => (e == "b:c".toList, none)) "a:b:c".toList
      = (true, none) := by
  exact ⟨by decide, by decide⟩

theorem goContainsChar_of_append_cons (pre rest : GoStr) (c : Char) :
    goContainsChar (pre ++ c :: rest) c = true := by
  induction pre with
  | nil => simp [goContainsChar]
  | cons a as ih => simp [goContainsChar, ih]

theorem goSplit_cons (sep c : Char) (rest : GoStr) :
    goSplit sep (c :: rest)
      = if c = sep then [] :: goSplit sep rest
        else (c :: (goSplit sep rest).headD []) :: (goSplit sep rest).tail := rfl

theorem goSplit_of_not_contains (sep : Char) (s : GoStr)
    (h : goContainsChar s sep = false) : goSplit sep s = [s] := by
  induction s with
  | nil => rfl
  | cons c rest ih =>
    simp only [goContainsChar, Bool.or_eq_false_iff, beq_eq_false_iff_ne] at h
    rw [goSplit_cons, if_neg h.1, ih h.2]
    all_goals rfl

theorem goSplit_append_sep (sep : Char) (pre rest : GoStr)
    (h : goContainsChar pre sep = false) :
    goSplit sep (pre ++ sep :: rest) = pre :: goSplit sep rest := by
  induction pre with
  | nil => simp [goSplit_cons]
  | cons c cs ih =>
    simp only [goContainsChar, Bool.or_eq_false_iff, beq_eq_false_iff_ne] at h
    simp only [List.cons_append]
    rw [goSplit_cons, if_neg h.1, ih h.2]
    all_goals rfl

/-- Claim C9, amended: an empty criterion is eligible with no error; a
criterion without a colon errors; otherwise ACTUAL is the part before the
first colon and EXPECTED is the fragment between the first and second
colons (text after a second colon is ignored) — both are trimmed,
expanded, and handed to the Validator as `check EXPECTED ACTUAL`. -/
theorem evaluateRunCriteria_spec (expand : GoStr → GoStr)
    (check : GoStr → GoStr → Bool × Option GoStr) :
    evaluateRunCriteria expand check [] = (true, none)
    ∧ (∀ criteria, criteria ≠ [] → goContainsChar criteria ':' = false →
        evaluateRunCriteria expand check criteria
          = (false, some ("Run criteria needs to have colon: but had: ".toList ++ criteria)))
    ∧ (∀ pre mid, goContainsChar pre ':' = false → goContainsChar mid ':' = false →
        evaluateRunCriteria expand check (pre ++ ':' :: mid)
          = check (expand (goTrimSpace mid)) (expand (goTrimSpace pre))
        ∧ ∀ rest, evaluateRunCriteria expand check (pre ++ ':' :: (mid ++ ':' :: rest))
          = check (expand (goTrimSpace mid)) (expand (goTrimSpace pre))) := by
  refine ⟨rfl, ?_, ?_⟩
  · intro criteria hne hnc
    unfold evaluateRunCriteria
    rw [if_neg hne, if_pos hnc]
  · intro pre mid hpre hmid
    constructor
    · have hne1 : pre ++ ':' :: mid ≠ [] := by simp
      have hc1 : goContainsChar (pre ++ ':' :: mid) ':' = true :=
        goContainsChar_of_append_cons pre mid ':'
      unfold evaluateRunCriteria
      rw [if_neg hne1, if_neg (by simp [hc1]),
        goSplit_append_sep _ _ _ hpre, goSplit_of_not_contains _ _ hmid]
      all_goals rfl
    · intro rest
      have hne1 : pre ++ ':' :: (mid ++ ':' :: rest) ≠ [] := by simp
      have hc1 : goContainsChar (pre ++ ':' :: (mid ++ ':' :: rest)) ':' = true :=
        goContainsChar_of_append_cons pre (mid ++ ':' :: rest) ':'
      unfold evaluateRunCriteria
      rw [if_neg hne1, if_neg (by simp [hc1]),
        goSplit_append_sep _ _ _ hpre, goSplit_append_sep _ _ _ hmid]
      all_goals rfl

/-- Witness for the amended C9 theorem at concrete criteria "a:b" and
"a:b:c" with an equality validator. -/
theorem evaluateRunCriteria_spec_witness :
    evaluateRunCriteria id (fun e a => (e == a, none)) "a:b".toList
      = (fun e a => ((e == a : Bool), (none : Option GoStr)))
          (id (goTrimSpace "b".toList)) (id (goTrimSpace "a".toList))
    ∧ evaluateRunCriteria id (fun e a => (e == a, none)) "a:b:c".toList
      = (fun e a => ((e == a : Bool), (none : Option GoStr)))
          (id (goTrimSpace "b".toList)) (id (goTrimSpace "a".toList)) := by
  have h := (evaluateRunCriteria_spec id (fun e a => (e == a, none))).2.2
    "a".toList "b".toList (by decide) (by decide)
  exact ⟨h.1, h.2 "c".toList⟩

/- ## The assert operation (C5) -/

/-- Bytewise (Go) string comparison: `goStrLt a b` is `a < b`. -/
def goStrLt : GoStr → GoStr → Bool
  | [], [] => false
  | [], _ :: _ => true
  | _ :: _, [] => false
  | a :: as, b :: bs => if a = b then goStrLt as bs else decide (a < b)

/-- The comparator of the file provider in `LogTypeMeta.LogRecordIterator`
(src/service_log_validator.go:745-752): later `LastModified` first; on
equal times, larger URL first. -/
def logFileLess (a b : LogFile) : Bool :=
  if a.lastModified = b.lastModified then goStrLt b.url a.url
  else decide (a.lastModified > b.lastModified)

/-- Ordered insertion for the provider's sort. -/
def insertByLess (p : GoStr × LogFile) :
    List (GoStr × LogFile) → List (GoStr × LogFile)
  | [] => [p]
  | q :: qs => if logFileLess p.2 q.2 then p :: q :: qs else q :: insertByLess p qs

/-- The provider's `sort.Slice` over the tracked files (deterministic
insertion sort; Go's sort order is unspecified only on full ties). -/
def sortFilesByLess : List (GoStr × LogFile) → List (GoStr × LogFile)
  | [] => []
  | p :: ps => insertByLess p (sortFilesByLess ps)

/-- The file provider of `LogTypeMeta.LogRecordIterator`
(src/service_log_validator.go:739-754), returning the sorted files; the Go
`[]*LogFile` pointers are stood for by the files' map keys. -/
def sortedFileNames (m : LogTypeMeta) : List GoStr :=
  (sortFilesByLess m.logFiles).map (·.1)

/-- `logRecordIterator` (src/service_log_validator.go:230-234): the cached
provider result (as map keys) and the current file index. -/
structure LogIter where
  names : List GoStr
  idx : Nat

/-- `candidate.HasPendingLogs()` looked up through the meta's file map. -/
def filesHasPending (m : LogTypeMeta) (name : GoStr) : Bool :=
  match assocGet m.logFiles name with
  | some f => f.HasPendingLogs
  | none => false

/-- The refresh scan of `HasNext` (src/service_log_validator.go:241-246):
`for j, candidate := range i.logFiles`, returning the first index whose
file has pending logs. -/
def findPendingIdx (m : LogTypeMeta) : List GoStr → Nat → Option Nat
  | [], _ => none
  | n :: rest, j =>
    if filesHasPending m n then some j else findPendingIdx m rest (j + 1)

/-- `logRecordIterator.HasNext` (src/service_log_validator.go:237-256):
past the end, refresh from the provider and scan for the first file with
pending logs; otherwise advance past exhausted files recursively. -/
def hasNextAux (m : LogTypeMeta) (names : List GoStr) (idx : Nat) :
    (List GoStr × Nat) × Bool :=
  if h : idx < names.length then
    if filesHasPending m (names.get ⟨idx, h⟩) then ((names, idx), true)
    else hasNextAux m names (idx + 1)
  else
    match findPendingIdx m (sortedFileNames m) 0 with
    | some j => ((sortedFileNames m, j), true)
    | none => ((sortedFileNames m, idx), false)
termination_by names.length - idx

/-- `HasNext` acting on the iterator state. -/
def iterHasNext (m : LogTypeMeta) (it : LogIter) : LogIter × Bool :=
  let r := hasNextAux m it.names it.idx
  (⟨r.1.1, r.1.2⟩, r.2)

/-- `LogTypeMeta.LogRecordIterator` (src/service_log_validator.go:756-759):
the iterator starts on the freshly provided file list at index 0. -/
def LogTypeMeta.newLogRecordIterator (m : LogTypeMeta) : LogIter :=
  ⟨sortedFileNames m, 0⟩

/-- `logRecordIterator.Next` (src/service_log_validator.go:719-736): shift
(by index when an `IndexedLogRecord` is passed, FIFO otherwise) from the
file under the cursor, storing the updated file back. Go would panic on an
out-of-range index or an absent file; that is modelled as a `none` record
(the caller turns it into an error, as the Go caller would crash). -/
def iterNext (m : LogTypeMeta) (it : LogIter) (indexValue : Option GoStr) :
    Option LogRecord × LogTypeMeta :=
  match it.names.get? it.idx with
  | none => (none, m)
  | some name =>
    match assocGet m.logFiles name with
    | none => (none, m)
    | some f =>
      match indexValue with
      | some v =>
        let r := f.ShiftLogRecordByIndex v
        (r.1, { m with logFiles := assocPut m.logFiles name r.2 })
      | none =>
        let r := f.ShiftLogRecord
        (r.1, { m with logFiles := assocPut m.logFiles name r.2 })

/-- An expected log record of an assert request: free-form in Go
(`interface{}`), either plain text or a structured mapping. -/
inductive ExpectedRecord where
  | text (s : GoStr)
  | structured (fields : List (GoStr × GoStr))
deriving DecidableEq, Repr

/-- Modelled from the spec: `toolbox.AsString`/`toolbox.AsJSONText`
(external) render a structured expected record as JSON text before index
matching. -/
def renderFields : List (GoStr × GoStr) → GoStr
  | [] => []
  | (k, v) :: rest =>
    '"' :: (k ++ '"' :: ':' :: '"' :: v
      ++ '"' :: (if rest.isEmpty then [] else [','])) ++ renderFields rest

/-- The text form of an expected record used for index-key extraction
(src/service_log_validator.go:332-335). -/
def ExpectedRecord.renderText : ExpectedRecord → GoStr
  | .text s => s
  | .structured fields => '\x7b' :: renderFields fields ++ ['\x7d']

/-- `ExpectedLogRecord` (one group of the assert request). -/
structure ExpectedLogRecords where
  type : GoStr
  tagID : GoStr
  records : List ExpectedRecord

/-- `LogValidatorAssertRequest`. -/
structure LogValidatorAssertRequest where
  description : GoStr
  logWaitTimeMs : Nat
  logWaitRetryCount : Nat
  expectedLogRecords : List ExpectedLogRecords

/-- An `assertly.Validation` reduced to the fields the claims touch:
tag, description and the list of failure messages. -/
structure Validation where
  tagID : GoStr
  description : GoStr
  failures : List GoStr
deriving DecidableEq, Repr

/-- `LogValidatorAssertResponse`. -/
structure LogValidatorAssertResponse where
  description : GoStr
  validations : List Validation
deriving DecidableEq, Repr

/-- The actual value handed to the comparison: the raw line, or the JSON
map parsed from it when the expected record is structured. -/
inductive ActualVal where
  | text (s : GoStr)
  | obj (fields : List (GoStr × GoStr))
deriving DecidableEq, Repr

/-- The wait loop of `assert` (src/service_log_validator.go:313-320): up
to `retry` rounds; each failed `HasNext` poll emits a Sleep event of
`waitMs` milliseconds (collected in the returned list — physical sleeping
is not modelled). -/
def waitForNext (m : LogTypeMeta) (waitMs : Nat) :
    LogIter → Nat → LogIter × List Nat
  | it, 0 => (it, [])
  | it, Nat.succ n =>
    let r := iterHasNext m it
    if r.2 then (r.1, [])
    else
      let w := waitForNext m waitMs r.1 n
      (w.1, waitMs :: w.2)

/-- One expected record of `assert` (src/service_log_validator.go:307-377):
open the per-record validation, wait for a record, on timeout add the
"missing log record" failure and signal early return; otherwise consume by
index when the type's index expression captures a non-empty key from the
expected text, else FIFO; parse the line as JSON when the expected record
is structured; run the comparison and merge its failures. The toolbox JSON
decoder (`LogRecord.AsMap`) and the `Assert` helper are abstracted as
`parseMap` and `assertCheck`; a Go nil-record dereference is modelled as
an error. Returns (meta, iterator, validation, sleep events, early
return). -/
def processExpectedRecord (m : LogTypeMeta) (it : LogIter)
    (group : ExpectedLogRecords) (er : ExpectedRecord) (waitMs retry : Nat)
    (parseMap : GoStr → Except GoStr (List (GoStr × GoStr)))
    (assertCheck : ExpectedRecord → ActualVal → Except GoStr Validation) :
    Except GoStr (LogTypeMeta × LogIter × Validation × List Nat × Bool) :=
  let validation0 : Validation :=
    { tagID := group.tagID,
      description := "Log Validation: ".toList ++ group.type, failures := [] }
  let w := waitForNext m waitMs it retry
  let r2 := iterHasNext m w.1
  if r2.2 = false then
    .ok (m, r2.1,
      { validation0 with failures := validation0.failures ++ ["missing log record".toList] },
      w.2, true)
  else
    let isLogStructured : Bool :=
      match er with
      | .structured _ => true
      | .text _ => false
    let indexValue : Option GoStr :=
      if m.logType.useIndex then
        match m.logType.indexExpr with
        | some expr =>
          let iv := expr er.renderText
          if iv ≠ [] then some iv else none
        | none => none
      else none
    let n := iterNext m r2.1 indexValue
    match n.1 with
    | none => .error "nil log record".toList
    | some logRecord =>
      match (if isLogStructured then (parseMap logRecord.line).map ActualVal.obj
             else .ok (ActualVal.text logRecord.line)) with
      | .error e => .error e
      | .ok actual =>
        match assertCheck er actual with
        | .error e => .error e
        | .ok logValidation =>
          .ok (n.2, r2.1,
            { validation0 with failures := validation0.failures ++ logValidation.failures },
            w.2, false)

/-- The expected-record loop of one group (src/service_log_validator.go:307):
collects the per-record validations and sleep events; a missing record
stops the whole assert (early-return flag). -/
def processRecords (waitMs retry : Nat)
    (parseMap : GoStr → Except GoStr (List (GoStr × GoStr)))
    (assertCheck : ExpectedRecord → ActualVal → Except GoStr Validation)
    (group : ExpectedLogRecords) :
    LogTypeMeta → LogIter → List ExpectedRecord →
    Except GoStr (LogTypeMeta × List Validation × List Nat × Bool)
  | m, _, [] => .ok (m, [], [], false)
  | m, it, er :: rest =>
    match processExpectedRecord m it group er waitMs retry parseMap assertCheck with
    | .error e => .error e
    | .ok (m', it', v, sleeps, earlyRet) =>
      if earlyRet then .ok (m', [v], sleeps, true)
      else
        match processRecords waitMs retry parseMap assertCheck group m' it' rest with
        | .error e => .error e
        | .ok (m'', vs, sleeps', early') => .ok (m'', v :: vs, sleeps ++ sleeps', early')

/-- The group loop of `assert` (src/service_log_validator.go:297-379):
resolve the group's `LogTypeMeta` (error when the type is unknown), build
a fresh iterator, process the expected records, store the consumed meta
back, and stop early when a record was missing. -/
def processGroups (waitMs retry : Nat)
    (parseMap : GoStr → Except GoStr (List (GoStr × GoStr)))
    (assertCheck : ExpectedRecord → ActualVal → Except GoStr Validation) :
    ServiceState → List ExpectedLogRecords →
    Except GoStr (ServiceState × List Validation × List Nat)
  | st, [] => .ok (st, [], [])
  | st, g :: rest =>
    match assocGet st (logTypeMetaKey g.type) with
    | none =>
      .error ("failed to assert, unknown type:".toList ++ g.type
        ++ ", please call listen function with requested log type".toList)
    | some m =>
      match processRecords waitMs retry parseMap assertCheck g
          m m.newLogRecordIterator g.records with
      | .error e => .error e
      | .ok (m', vs, sleeps, earlyRet) =>
        let st' := assocPut st (logTypeMetaKey g.type) m'
        if earlyRet then .ok (st', vs, sleeps)
        else
          match processGroups waitMs retry parseMap assertCheck st' rest with
          | .error e => .error e
          | .ok (st'', vs', sleeps') => .ok (st'', vs ++ vs', sleeps ++ sleeps')

/-- `logValidatorService.assert` (src/service_log_validator.go:280-381):
empty expectations return immediately; `LogWaitTimeMs`/`LogWaitRetryCount`
default to 500 and 3 when 0; then the groups are processed. The result is
the state after record consumption, the response, and the Sleep events
emitted by the wait loops. -/
def logValidatorAssert (st : ServiceState) (req : LogValidatorAssertRequest)
    (parseMap : GoStr → Except GoStr (List (GoStr × GoStr)))
    (assertCheck : ExpectedRecord → ActualVal → Except GoStr Validation) :
    Except GoStr (ServiceState × LogValidatorAssertResponse × List Nat) :=
  if req.expectedLogRecords.length = 0 then
    .ok (st, { description := req.description, validations := [] }, [])
  else
    let waitMs := if req.logWaitTimeMs = 0 then 500 else req.logWaitTimeMs
    let retry := if req.logWaitRetryCount = 0 then 3 else req.logWaitRetryCount
    match processGroups waitMs retry parseMap assertCheck st req.expectedLogRecords with
    | .error e => .error e
    | .ok (st', vs, sleeps) =>
      .ok (st', { description := req.description, validations := vs }, sleeps)

theorem filesHasPending_false_of_all_empty (m : LogTypeMeta)
    (hm : ∀ n f, assocGet m.logFiles n = some f → f.records = []) (name : GoStr) :
    filesHasPending m name = false := by
  unfold filesHasPending
  cases hg : assocGet m.logFiles name with
  | none => rfl
  | some f => simp [LogFile.HasPendingLogs, hm name f hg]

theorem findPendingIdx_none_of_all_false (m : LogTypeMeta)
    (hall : ∀ name, filesHasPending m name = false) :
    ∀ names j, findPendingIdx m names j = none := by
  intro names
  induction names with
  | nil => intro j; rfl
  | cons n rest ih =>
    intro j
    unfold findPendingIdx
    rw [hall n, if_neg Bool.false_ne_true]
    exact ih (j + 1)

theorem hasNextAux_false_of_all_empty (m : LogTypeMeta)
    (hall : ∀ name, filesHasPending m name = false) :
    ∀ k names idx, names.length - idx ≤ k → (hasNextAux m names idx).2 = false := by
  intro k
  induction k with
  | zero =>
    intro names idx hle
    have hnl : ¬ idx < names.length := by omega
    rw [hasNextAux.eq_def, dif_neg hnl, findPendingIdx_none_of_all_false m hall]
  | succ k ih =>
    intro names idx hle
    by_cases h : idx < names.length
    · rw [hasNextAux.eq_def, dif_pos h, hall _, if_neg Bool.false_ne_true]
      exact ih names (idx + 1) (by omega)
    · rw [hasNextAux.eq_def, dif_neg h, findPendingIdx_none_of_all_false m hall]

theorem iterHasNext_false_of_all_empty (m : LogTypeMeta) (it : LogIter)
    (hall : ∀ name, filesHasPending m name = false) :
    (iterHasNext m it).2 = false := by
  show (hasNextAux m it.names it.idx).2 = false
  exact hasNextAux_false_of_all_empty m hall (it.names.length - it.idx)
    it.names it.idx le_rfl

theorem waitForNext_sleeps_all_empty (m : LogTypeMeta) (waitMs : Nat)
    (hall : ∀ name, filesHasPending m name = false) :
    ∀ n it, (waitForNext m waitMs it n).2 = List.replicate n waitMs := by
  intro n
  induction n with
  | zero => intro it; rfl
  | succ n ih =>
    intro it
    simp only [waitForNext]
    rw [iterHasNext_false_of_all_empty m it hall, if_neg Bool.false_ne_true]
    dsimp only
    rw [ih]
    rfl

theorem processExpectedRecord_missing (m : LogTypeMeta) (it : LogIter)
    (group : ExpectedLogRecords) (er : ExpectedRecord) (waitMs retry : Nat)
    (parseMap : GoStr → Except GoStr (List (GoStr × GoStr)))
    (assertCheck : ExpectedRecord → ActualVal → Except GoStr Validation)
    (hall : ∀ name, filesHasPending m name = false) :
    processExpectedRecord m it group er waitMs retry parseMap assertCheck
      = .ok (m, (iterHasNext m (waitForNext m waitMs it retry).1).1,
             ⟨group.tagID, "Log Validation: ".toList ++ group.type,
              ["missing log record".toList]⟩,
             List.replicate retry waitMs, true) := by
  simp only [processExpectedRecord]
  rw [iterHasNext_false_of_all_empty m _ hall, if_pos rfl,
    waitForNext_sleeps_all_empty m waitMs hall retry it]
  rfl

theorem processGroups_missing (waitMs retry : Nat) (st : ServiceState)
    (g : ExpectedLogRecords) (m : LogTypeMeta) (r : ExpectedRecord)
    (rs : List ExpectedRecord)
    (parseMap : GoStr → Except GoStr (List (GoStr × GoStr)))
    (assertCheck : ExpectedRecord → ActualVal → Except GoStr Validation)
    (hmeta : assocGet st (logTypeMetaKey g.type) = some m)
    (hall : ∀ name, filesHasPending m name = false)
    (hrecs : g.records = r :: rs) :
    processGroups waitMs retry parseMap assertCheck st [g]
      = .ok (assocPut st (logTypeMetaKey g.type) m,
             [⟨g.tagID, "Log Validation: ".toList ++ g.type,
               ["missing log record".toList]⟩],
             List.replicate retry waitMs) := by
  have hrec := processExpectedRecord_missing m m.newLogRecordIterator g r
    waitMs retry parseMap assertCheck hall
  have step2 : processRecords waitMs retry parseMap assertCheck g
      m m.newLogRecordIterator (r :: rs)
      = .ok (m, [⟨g.tagID, "Log Validation: ".toList ++ g.type,
                 ["missing log record".toList]⟩],
             List.replicate retry waitMs, true) := by
    simp only [processRecords]
    rw [hrec]
    rfl
  simp only [processGroups, hmeta]
  rw [hrecs, step2]
  rfl

theorem assert_missing_record (st : ServiceState) (g : ExpectedLogRecords)
    (d : GoStr) (wms wrc : Nat) (m : LogTypeMeta) (r : ExpectedRecord)
    (rs : List ExpectedRecord)
    (parseMap : GoStr → Except GoStr (List (GoStr × GoStr)))
    (assertCheck : ExpectedRecord → ActualVal → Except GoStr Validation)
    (hmeta : assocGet st (logTypeMetaKey g.type) = some m)
    (hempty : ∀ n f, assocGet m.logFiles n = some f → f.records = [])
    (hrecs : g.records = r :: rs) :
    logValidatorAssert st ⟨d, wms, wrc, [g]⟩ parseMap assertCheck
      = .ok (assocPut st (logTypeMetaKey g.type) m,
             ⟨d, [⟨g.tagID, "Log Validation: ".toList ++ g.type,
                   ["missing log record".toList]⟩]⟩,
             List.replicate (if wrc = 0 then 3 else wrc)
               (if wms = 0 then 500 else wms)) := by
  have hall := filesHasPending_false_of_all_empty m hempty
  have step1 : logValidatorAssert st ⟨d, wms, wrc, [g]⟩ parseMap assertCheck
      = (match processGroups (if wms = 0 then 500 else wms)
            (if wrc = 0 then 3 else wrc) parseMap assertCheck st [g] with
         | .error e => .error e
         | .ok (st', vs, sleeps) =>
             .ok (st', { description := d, validations := vs }, sleeps)) := rfl
  rw [step1, processGroups_missing (if wms = 0 then 500 else wms)
    (if wrc = 0 then 3 else wrc) st g m r rs parseMap assertCheck hmeta hall hrecs]

theorem hasNextAux_pending_at (m : LogTypeMeta) (names : List GoStr) (idx : Nat)
    (h : idx < names.length)
    (hp : filesHasPending m (names.get ⟨idx, h⟩) = true) :
    hasNextAux m names idx = ((names, idx), true) := by
  rw [hasNextAux.eq_def, dif_pos h, if_pos hp]

theorem assert_mismatch_not_error (st : ServiceState) (g : ExpectedLogRecords)
    (d : GoStr) (wms wrc : Nat) (m : LogTypeMeta) (name : GoStr) (f : LogFile)
    (r : LogRecord) (rrest : List LogRecord) (s : GoStr) (v : Validation)
    (parseMap : GoStr → Except GoStr (List (GoStr × GoStr)))
    (assertCheck : ExpectedRecord → ActualVal → Except GoStr Validation)
    (hmeta : assocGet st (logTypeMetaKey g.type) = some m)
    (hfiles : m.logFiles = [(name, f)])
    (hnoidx : m.logType.useIndex = false)
    (hrec : f.records = r :: rrest)
    (hg : g.records = [ExpectedRecord.text s])
    (hcheck : assertCheck (.text s) (.text r.line) = .ok v) :
    logValidatorAssert st ⟨d, wms, wrc, [g]⟩ parseMap assertCheck
      = .ok (assocPut st (logTypeMetaKey g.type)
               { m with logFiles := assocPut m.logFiles name { f with records := rrest } },
             ⟨d, [⟨g.tagID, "Log Validation: ".toList ++ g.type, v.failures⟩]⟩,
             []) := by
  have hnames : sortedFileNames m = [name] := by
    unfold sortedFileNames
    rw [hfiles]
    rfl
  have hpend : filesHasPending m name = true := by
    unfold filesHasPending
    rw [hfiles, assocGet_cons]
    simp [LogFile.HasPendingLogs, hrec]
  have hHN : iterHasNext m ⟨[name], 0⟩ = (⟨[name], 0⟩, true) := by
    have h01 : (0 : Nat) < ([name] : List GoStr).length := by simp
    show (⟨(hasNextAux m [name] 0).1.1, (hasNextAux m [name] 0).1.2⟩,
          (hasNextAux m [name] 0).2) = ((⟨[name], 0⟩ : LogIter), true)
    rw [hasNextAux_pending_at m [name] 0 h01 hpend]
  have hwait : ∀ (waitMs n : Nat),
      waitForNext m waitMs ⟨[name], 0⟩ n = (⟨[name], 0⟩, []) := by
    intro waitMs n
    cases n with
    | zero => rfl
    | succ k =>
      simp only [waitForNext]
      rw [hHN]
      rfl
  have hshift : f.ShiftLogRecord = (some r, { f with records := rrest }) := by
    unfold LogFile.ShiftLogRecord
    rw [hrec]
  have hgetf : assocGet m.logFiles name = some f := by
    rw [hfiles, assocGet_cons]
    simp
  have hnextrec : iterNext m ⟨[name], 0⟩ none
      = (some r, { m with logFiles := assocPut m.logFiles name { f with records := rrest } }) := by
    have hstep : iterNext m ⟨[name], 0⟩ none
        = (match assocGet m.logFiles name with
           | none => ((none : Option LogRecord), m)
           | some f0 =>
             ((f0.ShiftLogRecord).1,
              { m with logFiles := assocPut m.logFiles name (f0.ShiftLogRecord).2 })) := rfl
    rw [hstep, hgetf]
    dsimp only
    rw [hshift]
  have hper : ∀ (waitMs retry : Nat),
      processExpectedRecord m ⟨[name], 0⟩ g (.text s) waitMs retry parseMap assertCheck
        = .ok ({ m with logFiles := assocPut m.logFiles name { f with records := rrest } },
               ⟨[name], 0⟩,
               ⟨g.tagID, "Log Validation: ".toList ++ g.type, v.failures⟩,
               [], false) := by
    intro waitMs retry
    simp only [processExpectedRecord, hwait _ retry, hHN, hnoidx, hnextrec, hcheck,
      Bool.true_eq_false, Bool.false_eq_true, if_false, List.nil_append]
  have hpr : ∀ (waitMs retry : Nat),
      processRecords waitMs retry parseMap assertCheck g m ⟨[name], 0⟩
          [ExpectedRecord.text s]
        = .ok ({ m with logFiles := assocPut m.logFiles name { f with records := rrest } },
               [⟨g.tagID, "Log Validation: ".toList ++ g.type, v.failures⟩],
               [], false) := by
    intro waitMs retry
    simp only [processRecords]
    rw [hper]
    rfl
  have hiter : m.newLogRecordIterator = (⟨[name], 0⟩ : LogIter) := by
    unfold LogTypeMeta.newLogRecordIterator
    rw [hnames]
  have hpg : ∀ (waitMs retry : Nat),
      processGroups waitMs retry parseMap assertCheck st [g]
        = .ok (assocPut st (logTypeMetaKey g.type)
                 { m with logFiles := assocPut m.logFiles name { f with records := rrest } },
               [⟨g.tagID, "Log Validation: ".toList ++ g.type, v.failures⟩],
               []) := by
    intro waitMs retry
    simp only [processGroups, hmeta]
    rw [hg, hiter, hpr]
    rfl
  have step1 : logValidatorAssert st ⟨d, wms, wrc, [g]⟩ parseMap assertCheck
      = (match processGroups (if wms = 0 then 500 else wms)
            (if wrc = 0 then 3 else wrc) parseMap assertCheck st [g] with
         | .error e => .error e
         | .ok (st', vs, sleeps) =>
             .ok (st', { description := d, validations := vs }, sleeps)) := rfl
  rw [step1, hpg]

/-- Claim C5. First conjunct: with `LogWaitTimeMs`/`LogWaitRetryCount` given
as `wms`/`wrc`, the effective wait parameters are 500 and 3 when the inputs
are 0 (and the inputs otherwise); when no log record is available at all,
the wait loop runs exactly that many rounds — emitting one Sleep event of
the effective wait time per round — after which a "missing log record"
failure is recorded into the returned Validations and assert returns
successfully (`.ok`, which the service handler reports as `Status=ok`),
not an error. Second conjunct: when a record is available, a mismatching
comparison is not an error either: the comparison's failures are merged
into the returned Validations, the record is consumed, and assert again
returns `.ok`. -/
theorem logValidatorAssert_spec :
    (∀ (st : ServiceState) (g : ExpectedLogRecords) (d : GoStr) (wms wrc : Nat)
        (m : LogTypeMeta) (r : ExpectedRecord) (rs : List ExpectedRecord)
        (parseMap : GoStr → Except GoStr (List (GoStr × GoStr)))
        (assertCheck : ExpectedRecord → ActualVal → Except GoStr Validation),
      assocGet st (logTypeMetaKey g.type) = some m →
      (∀ n f0, assocGet m.logFiles n = some f0 → f0.records = []) →
      g.records = r :: rs →
      logValidatorAssert st ⟨d, wms, wrc, [g]⟩ parseMap assertCheck
        = .ok (assocPut st (logTypeMetaKey g.type) m,
               ⟨d, [⟨g.tagID, "Log Validation: ".toList ++ g.type,
                     ["missing log record".toList]⟩]⟩,
               List.replicate (if wrc = 0 then 3 else wrc)
                 (if wms = 0 then 500 else wms)))
    ∧ (∀ (st : ServiceState) (g : ExpectedLogRecords) (d : GoStr) (wms wrc : Nat)
        (m : LogTypeMeta) (name : GoStr) (f : LogFile) (r : LogRecord)
        (rrest : List LogRecord) (s : GoStr) (v : Validation)
        (parseMap : GoStr → Except GoStr (List (GoStr × GoStr)))
        (assertCheck : ExpectedRecord → ActualVal → Except GoStr Validation),
      assocGet st (logTypeMetaKey g.type) = some m →
      m.logFiles = [(name, f)] →
      m.logType.useIndex = false →
      f.records = r :: rrest →
      g.records = [ExpectedRecord.text s] →
      assertCheck (.text s) (.text r.line) = .ok v →
      logValidatorAssert st ⟨d, wms, wrc, [g]⟩ parseMap assertCheck
        = .ok (assocPut st (logTypeMetaKey g.type)
                 { m with logFiles := assocPut m.logFiles name { f with records := rrest } },
               ⟨d, [⟨g.tagID, "Log Validation: ".toList ++ g.type, v.failures⟩]⟩,
               [])) :=
  ⟨fun st g d wms wrc m r rs parseMap assertCheck h1 h2 h3 =>
     assert_missing_record st g d wms wrc m r rs parseMap assertCheck h1 h2 h3,
   fun st g d wms wrc m name f r rrest s v parseMap assertCheck h1 h2 h3 h4 h5 h6 =>
     assert_mismatch_not_error st g d wms wrc m name f r rrest s v
       parseMap assertCheck h1 h2 h3 h4 h5 h6⟩

/-- Log type fixture for the C5 witness. -/
def c5LogType : LogType :=
  { name := "ev".toList, mask := [], inclusion := [], exclusion := [],
    useIndex := false, indexExpr := none }

/-- The expected-record group of the C5 witness. -/
def c5Group : ExpectedLogRecords :=
  { type := "ev".toList, tagID := "T1".toList,
    records := [ExpectedRecord.text "x".toList] }

/-- A tracked file with no queued records (C5 missing-record case). -/
def c5EmptyFile : LogFile :=
  { url := [], content := [], name := "e.log".toList, logType := c5LogType,
    processingState := ⟨0, 0⟩, lastModified := 0, size := 0,
    records := [], indexedRecords := [], alloc := 0 }

/-- Meta entry holding only the empty file. -/
def c5MetaEmpty : LogTypeMeta :=
  { source := [], logType := c5LogType,
    logFiles := [("e.log".toList, c5EmptyFile)] }

/-- Service state for the C5 missing-record case. -/
def c5StateA : ServiceState := [(logTypeMetaKey "ev".toList, c5MetaEmpty)]

/-- The queued record of the C5 mismatch case. -/
def c5Rec : LogRecord := { id := 1, url := "u".toList, number := 1, line := "y".toList }

/-- A tracked file with one queued record (C5 mismatch case). -/
def c5FullFile : LogFile :=
  { url := [], content := "y\n".toList, name := "f.log".toList, logType := c5LogType,
    processingState := ⟨1, 2⟩, lastModified := 0, size := 2,
    records := [c5Rec], indexedRecords := [], alloc := 2 }

/-- Meta entry holding the one-record file. -/
def c5MetaFull : LogTypeMeta :=
  { source := [], logType := c5LogType,
    logFiles := [("f.log".toList, c5FullFile)] }

/-- Service state for the C5 mismatch case. -/
def c5StateB : ServiceState := [(logTypeMetaKey "ev".toList, c5MetaFull)]

/-- A failing comparison result (the mismatch to be recorded). -/
def c5Fail : Validation :=
  { tagID := [], description := [],
    failures := ["expected x but had y".toList] }

/-- Witness for C5: with zero wait parameters and no available record,
assert returns ok with three 500 ms sleeps and the missing-record failure;
with a record present and a failing comparison, assert returns ok with the
failure recorded and the record consumed. -/
theorem logValidatorAssert_spec_witness :
    (logValidatorAssert c5StateA ⟨"d".toList, 0, 0, [c5Group]⟩
        (fun _ => .ok []) (fun _ _ => .ok c5Fail)
      = .ok (assocPut c5StateA (logTypeMetaKey c5Group.type) c5MetaEmpty,
             ⟨"d".toList, [⟨c5Group.tagID,
               "Log Validation: ".toList ++ c5Group.type,
               ["missing log record".toList]⟩]⟩,
             List.replicate 3 500))
    ∧ (logValidatorAssert c5StateB ⟨"d".toList, 0, 0, [c5Group]⟩
        (fun _ => .ok []) (fun _ _ => .ok c5Fail)
      = .ok (assocPut c5StateB (logTypeMetaKey c5Group.type)
               { c5MetaFull with logFiles := (assocPut c5MetaFull.logFiles
                   "f.log".toList ({ c5FullFile with records := [] })) },
             ⟨"d".toList, [⟨c5Group.tagID,
               "Log Validation: ".toList ++ c5Group.type, c5Fail.failures⟩]⟩,
             [])) := by
  constructor
  · refine logValidatorAssert_spec.1 c5StateA c5Group "d".toList 0 0 c5MetaEmpty
      (ExpectedRecord.text "x".toList) [] (fun _ => .ok []) (fun _ _ => .ok c5Fail)
      rfl ?_ rfl
    intro n f0 h
    rw [show c5MetaEmpty.logFiles = [("e.log".toList, c5EmptyFile)] from rfl,
      assocGet_cons] at h
    by_cases hn : ("e.log".toList : GoStr) = n
    · rw [if_pos hn] at h
      cases h
      rfl
    · rw [if_neg hn] at h
      simp [assocGet] at h
  · exact logValidatorAssert_spec.2 c5StateB c5Group "d".toList 0 0 c5MetaFull
      "f.log".toList c5FullFile c5Rec [] "x".toList c5Fail (fun _ => .ok [])
      (fun _ _ => .ok c5Fail) rfl rfl rfl rfl rfl rfl

end Endly
